import Mathlib

/-!
Verification of the acquisition core of the Power-Analysis-Automation-System
firmware: a shallow embedding of src/lib/Data.py (DataAggregator, DataTable),
src/lib/Scales.py, src/lib/LogWriter.py (log_values) and the session loop of
src/lib/ActiveState.py (_run, _get_data), with theorems settling the spec's
claims about them.  Python floats are modelled as exact rationals; a Python
exception (KeyError, IndexError, ZeroDivisionError, AttributeError,
StopIteration escaping) is modelled by an Option-valued function returning
none.
-/

namespace PAS

/-! ### DataAggregator (src/lib/Data.py lines 11-52) -/

/-- State of a DataAggregator: number of channels (self._dim), number of
samples added (self._n) and per-channel (min, sum, max) triples
(self._data).  -/
structure DataAggregator where
  dim : Nat
  n : Nat
  data : List (ℚ × ℚ × ℚ)
deriving DecidableEq

/-- DataAggregator.reset: sets self._n = 0 and
self._data = [[1e6, -1, 0] for i in range(self._dim)].  Note the source
initialises the per-channel triple to [1e6, -1, 0] even though its own
comment says "Initialize each stream with [min=large, sum=0, max=0]". -/
def DataAggregator.reset (dim : Nat) : DataAggregator :=
  ⟨dim, 0, List.replicate dim (1000000, -1, 0)⟩

/-- One step of the loop body of DataAggregator.add: add value to the sum,
update min and max of the channel triple. -/
def DataAggregator.updateEntry (d : ℚ × ℚ × ℚ) (v : ℚ) : ℚ × ℚ × ℚ :=
  (if v < d.1 then v else d.1, d.2.1 + v, if v > d.2.2 then v else d.2.2)

/-- DataAggregator.add: increments self._n and updates the first
min(dim, len(values)) channel triples; the Python loop iterates over
values and breaks at index == self._dim (extra values are ignored), and a
shorter values list updates only its own prefix of channels. -/
def DataAggregator.add (a : DataAggregator) (values : List ℚ) : DataAggregator :=
  { a with
    n := a.n + 1
    data := List.zipWith DataAggregator.updateEntry a.data values
              ++ a.data.drop values.length }

/-- Repeated DataAggregator.add calls (left to right). -/
def DataAggregator.addAll (a : DataAggregator) (vss : List (List ℚ)) : DataAggregator :=
  vss.foldl DataAggregator.add a

/-- DataAggregator.get (no index argument): returns
[[min, sum/n, max] for each channel].  When self._n = 0 the Python division
raises ZeroDivisionError, modelled as none. -/
def DataAggregator.get (a : DataAggregator) : Option (List (ℚ × ℚ × ℚ)) :=
  if a.n = 0 then none
  else some (a.data.map (fun d => (d.1, d.2.1 / (a.n : ℚ), d.2.2)))

/-! ### DataTable, the ring buffer (src/lib/Data.py lines 56-90) -/

/-- State of a DataTable: number of channels (self._dim), capacity
(self._size) and the per-channel lists of stored values (self._data). -/
structure DataTable where
  dim : Nat
  size : Nat
  data : List (List ℚ)
deriving DecidableEq

/-- DataTable.reset (as established by __init__/reset): self._n = 0 is
unused afterwards; self._data = [[] for i in range(self._dim)]. -/
def DataTable.reset (dim size : Nat) : DataTable :=
  ⟨dim, size, List.replicate dim []⟩

/-- DataTable.add: if len(self._data[0]) == self._size, drop the oldest
element of every channel; then append values[i] to channel i for
i < self._dim.  Accessing self._data[0] with dim = 0 raises IndexError,
and values[i] with len(values) < dim raises IndexError: both are modelled
as none. -/
def DataTable.add (t : DataTable) (values : List ℚ) : Option DataTable :=
  match t.data with
  | [] => none
  | first :: _ =>
    let d := if first.length = t.size then t.data.map (fun l => l.drop 1) else t.data
    if t.dim ≤ values.length then
      some { t with data := List.zipWith (fun l v => l ++ [v]) d (values.take t.dim) }
    else none

/-- Repeated DataTable.add calls; the whole sequence fails if any add
raises. -/
def DataTable.addAll : DataTable → List (List ℚ) → Option DataTable
  | t, [] => some t
  | t, vs :: rest =>
    match t.add vs with
    | some t' => t'.addAll rest
    | none => none

/-- DataTable.get (no index argument): returns self._data. -/
def DataTable.get (t : DataTable) : List (List ℚ) := t.data

/-! ### Scales.py -/

/-- INT_SCALES: ordered dict mapping an interval-scale label to
(seconds-per-unit, label of the next larger duration unit).  A missing key
raises KeyError, modelled as none.  The float 0.001 is the exact rational
1/1000. -/
def INT_SCALES (s : String) : Option (ℚ × String) :=
  if s = "ms" then some (1/1000, "s")
  else if s = "s" then some (1, "m")
  else if s = "m" then some (60, "h")
  else if s = "h" then some (3600, "d")
  else if s = "d" then some (86400, "d")
  else none

/-- int_fac(scale) = INT_SCALES[scale][0]. -/
def int_fac (s : String) : Option ℚ := (INT_SCALES s).map (fun p => p.1)

/-- dur_scale(scale) = INT_SCALES[scale][1]. -/
def dur_scale (s : String) : Option String := (INT_SCALES s).map (fun p => p.2)

/-- dur_fac(scale) = INT_SCALES[dur_scale(scale)][0]; a KeyError in
dur_scale propagates. -/
def dur_fac (s : String) : Option ℚ := (dur_scale s).bind int_fac

/-! ### LogWriter.log_values (src/lib/LogWriter.py) -/

/-- Structural model of one per-sample CSV line produced by
LogWriter.log_values via self._fmt = "{0:.1f}," + provider_fmt + "\n":
the first field is the rational value rendered with t_decimals places
after the point, followed by the channel values at the provider's
precision. -/
structure LogLine where
  t_ms : ℚ
  t_decimals : Nat
  channels : List ℚ
deriving DecidableEq

/-- LogWriter.log_values(t, values): formats self._fmt with (1000*t,
*values); the "{0:.1f}" slot carries 1000*t at one decimal place. -/
def LogWriter.log_values (t : ℚ) (values : List ℚ) : LogLine :=
  ⟨1000 * t, 1, values⟩

/-! ### ActiveState (src/lib/ActiveState.py)

The session coroutine _run (lines 157-218) is embedded as a function from
an abstract schedule of loop iterations to the final shared results, the
ordered trace of observable collaborator events, and the way the
coroutine terminated.  Each loop iteration either yields a sample (the
value of _get_data, with its time.monotonic() timestamp) or raises
StopIteration from the source; the schedule ending models the loop guard
(duration expiry or the stop flag) becoming false. -/

/-- One iteration of the main sampling loop: either _get_data returns
(timestamp, values), or the data provider raises StopIteration. -/
inductive StepResult where
  | ok (t : ℚ) (v : List ℚ)
  | stopIteration
deriving DecidableEq

/-- Observable collaborator events of one session, in program order. -/
inductive Event where
  | loggerOpen
  | logSettings
  | logValues (line : LogLine)
  | publish (time : ℚ) (samples : Nat) (values : List (ℚ × ℚ × ℚ))
  | logSummary (samples : Nat)
  | loggerClose
  | joinTasks
deriving DecidableEq

/-- True for the event of writing the SessionResult into app.results. -/
def Event.isPublish : Event → Bool
  | .publish _ _ _ => true
  | _ => false

/-- True for the await asyncio.gather(key_task, view_task) event. -/
def Event.isJoin : Event → Bool
  | .joinTasks => true
  | _ => false

/-- True for a per-sample log line event. -/
def Event.isLogValues : Event → Bool
  | .logValues _ => true
  | _ => false

/-- The shared results object app.results (fields written by _run lines
211-213). -/
structure Results where
  time : ℚ
  samples : Nat
  values : List (ℚ × ℚ × ℚ)
deriving DecidableEq

/-- How the session coroutine _run terminated: failed = early return on a
probe exception (line 171); crashed = an unhandled exception after the
loop (AttributeError on an unset self.data_t, or ZeroDivisionError inside
DataAggregator.get); finished = normal fall-through past the final
gather. -/
inductive Outcome
  | failed
  | crashed
  | finished
deriving DecidableEq

/-- State carried by the main sampling loop of _run (lines 183-208):
the aggregator m_data, the last sample timestamp self.data_t (none while
the attribute is unset), the counter samples, and the event trace so
far. -/
structure LoopOut where
  agg : DataAggregator
  dataT : Option ℚ
  samples : Nat
  events : List Event
deriving DecidableEq

/-- The main sampling loop of _run: per iteration it sets self.data_t and
self.data_v from _get_data, logs one line via log_values, feeds the
aggregator, and increments samples; on StopIteration it sets the stop
flag and breaks. -/
def ActiveState.runLoop (agg : DataAggregator) (dataT : Option ℚ) (samples : Nat)
    (events : List Event) : List StepResult → LoopOut
  | [] => ⟨agg, dataT, samples, events⟩
  | .stopIteration :: _ => ⟨agg, dataT, samples, events⟩
  | .ok t v :: rest =>
    ActiveState.runLoop (agg.add v) (some t) (samples + 1)
      (events ++ [Event.logValues (LogWriter.log_values t v)]) rest

/-- ActiveState._run (lines 157-218).  Arguments: startT is the
time.monotonic() value captured into self._start_t; probeOk tells whether
the initial probe get_data (line 168) succeeds; steps is the schedule of
main-loop iterations; dim the channel count; dataT0 the pre-existing
value of the self.data_t attribute (none on a fresh ActiveState); init
the prior contents of app.results.  Returns (final app.results, event
trace, outcome).  On a probe exception the coroutine prints
"#data-provider timed out" and returns at once: nothing further is
logged, app.results is untouched, and the gather of key_task/view_task is
never reached.  Otherwise, after the loop, lines 211-213 write
app.results.time = self.data_t - self._start_t (AttributeError if
self.data_t was never set), app.results.samples, and app.results.values =
m_data.get() (ZeroDivisionError when zero samples were added); then
log_summary, logger.close and the final gather run in that order. -/
def ActiveState.run (startT : ℚ) (probeOk : Bool) (steps : List StepResult)
    (dim : Nat) (dataT0 : Option ℚ) (init : Results) :
    Results × List Event × Outcome :=
  let ev0 : List Event := [.loggerOpen, .logSettings]
  if probeOk then
    let out := ActiveState.runLoop (DataAggregator.reset dim) dataT0 0 ev0 steps
    match out.dataT with
    | none => (init, out.events, .crashed)
    | some t =>
      let r1 : Results := { init with time := t - startT, samples := out.samples }
      match out.agg.get with
      | none => (r1, out.events, .crashed)
      | some vals =>
        ({ r1 with values := vals },
         out.events ++ [.publish (t - startT) out.samples vals,
                        .logSummary out.samples, .loggerClose, .joinTasks],
         .finished)
  else (init, ev0, .failed)

/-- ActiveState._get_data (lines 57-68), with the data provider given as
the sequence of raw readings its successive get_data() calls return.
Returns (number of get_data calls made, accepted values).  With
oversample < 2 it is one call whose result is returned unchanged;
otherwise oversample calls are summed per channel into d_sum (an
IndexError on a too-short reading is modelled as none) and the sum is
divided by oversample once at the end. -/
def ActiveState.getData (oversample dim : Nat) (provider : Nat → List ℚ) :
    Option (Nat × List ℚ) :=
  if oversample < 2 then some (1, provider 0)
  else if (List.range oversample).all (fun j => dim ≤ (provider j).length) then
    let dsum := (List.range oversample).foldl
      (fun acc j => List.zipWith (fun a b => a + b) acc ((provider j).take dim))
      (List.replicate dim (0 : ℚ))
    some (oversample, dsum.map (fun s => s / (oversample : ℚ)))
  else none

/-! ### Helper lemmas -/

/-- Combined lookup used to describe per-channel updates: the channel
entry is transformed by f when a value is present, kept otherwise. -/
def stepOpt {α β : Type} (f : α → β → α) : Option α → Option β → Option α
  | some d, some v => some (f d v)
  | some d, none => some d
  | none, _ => none

/-- Lookup into the channel list produced by the update pattern of
DataAggregator.add: channel c is updated with values[c] when present and
kept unchanged otherwise. -/
lemma zip_drop_get? {α β : Type} (f : α → β → α) :
    ∀ (D : List α) (vs : List β) (c : Nat),
      (List.zipWith f D vs ++ D.drop vs.length).get? c =
        stepOpt f (D.get? c) (vs.get? c) := by
  intro D
  induction D with
  | nil =>
    intro vs c
    cases vs <;> cases c <;> simp [stepOpt]
  | cons d D ih =>
    intro vs c
    cases vs with
    | nil =>
      cases c with
      | zero => simp [stepOpt]
      | succ c' => cases h : D[c']? <;> simp [stepOpt, List.get?_eq_getElem?, h]
    | cons v vs' =>
      cases c with
      | zero => simp [stepOpt]
      | succ c' => simpa using ih vs' c'

/-- DataAggregator.add updates channel c with values[c] when present and
keeps it unchanged otherwise. -/
lemma DataAggregator.add_get? (a : DataAggregator) (vs : List ℚ) (c : Nat) :
    (a.add vs).data.get? c =
      stepOpt DataAggregator.updateEntry (a.data.get? c) (vs.get? c) :=
  zip_drop_get? DataAggregator.updateEntry a.data vs c

/-- Each DataAggregator.add increments the sample counter by one. -/
lemma DataAggregator.addAll_n (vss : List (List ℚ)) :
    ∀ a : DataAggregator, (a.addAll vss).n = a.n + vss.length := by
  induction vss with
  | nil => intro a; simp [DataAggregator.addAll]
  | cons vs rest ih =>
    intro a
    have h : a.addAll (vs :: rest) = (a.add vs).addAll rest := rfl
    rw [h, ih]
    simp [DataAggregator.add]
    omega

/-- If channel c's running max is 0 and every added sample is negative on
channel c (whenever it reaches it), the running max stays 0. -/
lemma DataAggregator.addAll_neg_max (vss : List (List ℚ)) :
    ∀ (a : DataAggregator) (c : Nat),
      (a.data.get? c).map (fun d => d.2.2) = some 0 →
      (∀ vs ∈ vss, c < vs.length → vs.getD c 0 < 0) →
      ((a.addAll vss).data.get? c).map (fun d => d.2.2) = some 0 := by
  induction vss with
  | nil => intro a c h _; simpa [DataAggregator.addAll] using h
  | cons vs rest ih =>
    intro a c h hneg
    obtain ⟨d, hd, h0⟩ : ∃ d, a.data.get? c = some d ∧ d.2.2 = 0 := by
      cases hd : a.data.get? c with
      | none => rw [hd] at h; simp at h
      | some d => rw [hd] at h; exact ⟨d, rfl, by simpa using h⟩
    have step : ((a.add vs).data.get? c).map (fun d => d.2.2) = some 0 := by
      rw [DataAggregator.add_get?, hd]
      cases hv : vs.get? c with
      | none => simpa [stepOpt] using h0
      | some v =>
        have hc : c < vs.length := by
          rcases List.get?_eq_some.mp hv with ⟨hlt, -⟩
          exact hlt
        have hvneg : v < 0 := by
          have := hneg vs (List.mem_cons_self vs rest) hc
          rwa [List.getD_eq_get?, hv, Option.getD_some] at this
        simp [stepOpt, DataAggregator.updateEntry, h0]
        intro hpos
        linarith
    have hrw : a.addAll (vs :: rest) = (a.add vs).addAll rest := rfl
    rw [hrw]
    exact ih (a.add vs) c step (fun u hu hcu => hneg u (List.mem_cons_of_mem vs hu) hcu)

/-- The main loop only appends per-sample log-line events to the trace,
one for each consumed successful _get_data result. -/
lemma ActiveState.runLoop_trace (steps : List StepResult) :
    ∀ (agg : DataAggregator) (dataT : Option ℚ) (samples : Nat) (ev : List Event),
      ∃ l, (ActiveState.runLoop agg dataT samples ev steps).events = ev ++ l ∧
        ∀ e ∈ l, ∃ t v, StepResult.ok t v ∈ steps ∧
          e = Event.logValues (LogWriter.log_values t v) := by
  induction steps with
  | nil =>
    intro agg dataT samples ev
    exact ⟨[], by simp [ActiveState.runLoop], by simp⟩
  | cons s rest ih =>
    intro agg dataT samples ev
    cases s with
    | stopIteration =>
      exact ⟨[], by simp [ActiveState.runLoop], by simp⟩
    | ok t v =>
      obtain ⟨l, hl, hmem⟩ :=
        ih (agg.add v) (some t) (samples + 1)
          (ev ++ [Event.logValues (LogWriter.log_values t v)])
      refine ⟨Event.logValues (LogWriter.log_values t v) :: l, ?_, ?_⟩
      · have hstep : ActiveState.runLoop agg dataT samples ev (StepResult.ok t v :: rest) =
            ActiveState.runLoop (agg.add v) (some t) (samples + 1)
              (ev ++ [Event.logValues (LogWriter.log_values t v)]) rest := rfl
        rw [hstep, hl]
        simp
      · intro e he
        rcases List.mem_cons.mp he with h | h
        · exact ⟨t, v, by simp, h⟩
        · obtain ⟨t', v', hm, he'⟩ := hmem e h
          exact ⟨t', v', List.mem_cons_of_mem _ hm, he'⟩

/-- When the probe succeeds and the loop left self.data_t set and at
least one sample was aggregated, _run publishes the results and runs the
summary/close/gather tail. -/
lemma ActiveState.run_finished (startT : ℚ) (steps : List StepResult) (dim : Nat)
    (dataT0 : Option ℚ) (init : Results) (t : ℚ) (vals : List (ℚ × ℚ × ℚ))
    (h1 : (ActiveState.runLoop (DataAggregator.reset dim) dataT0 0
            [Event.loggerOpen, Event.logSettings] steps).dataT = some t)
    (h2 : (ActiveState.runLoop (DataAggregator.reset dim) dataT0 0
            [Event.loggerOpen, Event.logSettings] steps).agg.get = some vals) :
    ActiveState.run startT true steps dim dataT0 init =
      (⟨t - startT,
        (ActiveState.runLoop (DataAggregator.reset dim) dataT0 0
          [Event.loggerOpen, Event.logSettings] steps).samples, vals⟩,
       (ActiveState.runLoop (DataAggregator.reset dim) dataT0 0
          [Event.loggerOpen, Event.logSettings] steps).events ++
         [Event.publish (t - startT)
            (ActiveState.runLoop (DataAggregator.reset dim) dataT0 0
              [Event.loggerOpen, Event.logSettings] steps).samples vals,
          Event.logSummary
            (ActiveState.runLoop (DataAggregator.reset dim) dataT0 0
              [Event.loggerOpen, Event.logSettings] steps).samples,
          Event.loggerClose, Event.joinTasks],
       Outcome.finished) := by
  unfold ActiveState.run
  simp only [if_true, h1, h2]

/-- Outcomes of _run with a successful probe: the coroutine either
crashes after the loop or finishes through the publish/summary/close/
gather tail; in every case the trace extends the loop trace, and a
finished run appends exactly the four tail events. -/
lemma ActiveState.run_true_trace (startT : ℚ) (steps : List StepResult) (dim : Nat)
    (dataT0 : Option ℚ) (init : Results) :
    ∃ tail, (ActiveState.run startT true steps dim dataT0 init).2.1 =
        (ActiveState.runLoop (DataAggregator.reset dim) dataT0 0
          [Event.loggerOpen, Event.logSettings] steps).events ++ tail ∧
      ∀ e ∈ tail, e.isLogValues = false := by
  unfold ActiveState.run
  simp only [if_true]
  cases h1 : (ActiveState.runLoop (DataAggregator.reset dim) dataT0 0
      [Event.loggerOpen, Event.logSettings] steps).dataT with
  | none => exact ⟨[], by simp [h1], by simp⟩
  | some t =>
    cases h2 : (ActiveState.runLoop (DataAggregator.reset dim) dataT0 0
        [Event.loggerOpen, Event.logSettings] steps).agg.get with
    | none => exact ⟨[], by simp [h1, h2], by simp⟩
    | some vals =>
      refine ⟨[Event.publish (t - startT)
                 (ActiveState.runLoop (DataAggregator.reset dim) dataT0 0
                   [Event.loggerOpen, Event.logSettings] steps).samples vals,
               Event.logSummary
                 (ActiveState.runLoop (DataAggregator.reset dim) dataT0 0
                   [Event.loggerOpen, Event.logSettings] steps).samples,
               Event.loggerClose, Event.joinTasks], by simp [h1, h2], ?_⟩
      intro e he
      simp only [List.mem_cons, List.mem_singleton, List.not_mem_nil, or_false] at he
      rcases he with h | h | h | h <;> simp [h, Event.isLogValues]

/-- If the loop left self.data_t unset, _run crashes with AttributeError
at line 211, leaving app.results untouched. -/
lemma ActiveState.run_crash_attr (startT : ℚ) (steps : List StepResult) (dim : Nat)
    (dataT0 : Option ℚ) (init : Results)
    (h1 : (ActiveState.runLoop (DataAggregator.reset dim) dataT0 0
            [Event.loggerOpen, Event.logSettings] steps).dataT = none) :
    ActiveState.run startT true steps dim dataT0 init =
      (init,
       (ActiveState.runLoop (DataAggregator.reset dim) dataT0 0
         [Event.loggerOpen, Event.logSettings] steps).events,
       Outcome.crashed) := by
  unfold ActiveState.run
  simp only [if_true, h1]

/-- If the aggregator holds zero samples, DataAggregator.get raises
ZeroDivisionError at line 213, after results.time and results.samples
were already overwritten. -/
lemma ActiveState.run_crash_div (startT : ℚ) (steps : List StepResult) (dim : Nat)
    (dataT0 : Option ℚ) (init : Results) (t : ℚ)
    (h1 : (ActiveState.runLoop (DataAggregator.reset dim) dataT0 0
            [Event.loggerOpen, Event.logSettings] steps).dataT = some t)
    (h2 : (ActiveState.runLoop (DataAggregator.reset dim) dataT0 0
            [Event.loggerOpen, Event.logSettings] steps).agg.get = none) :
    ActiveState.run startT true steps dim dataT0 init =
      (⟨t - startT,
        (ActiveState.runLoop (DataAggregator.reset dim) dataT0 0
          [Event.loggerOpen, Event.logSettings] steps).samples, init.values⟩,
       (ActiveState.runLoop (DataAggregator.reset dim) dataT0 0
         [Event.loggerOpen, Event.logSettings] steps).events,
       Outcome.crashed) := by
  unfold ActiveState.run
  simp only [if_true, h1, h2]

/-! ### The DataTable ring-buffer invariant -/

/-- Combined lookup for zipWith: defined only when both sides are
present. -/
def bothOpt {α β γ : Type} (f : α → β → γ) : Option α → Option β → Option γ
  | some a, some b => some (f a b)
  | _, _ => none

/-- Pointwise description of List.zipWith. -/
lemma zipWith_get? {α β γ : Type} (f : α → β → γ) :
    ∀ (as : List α) (bs : List β) (c : Nat),
      (List.zipWith f as bs).get? c = bothOpt f (as.get? c) (bs.get? c) := by
  intro as
  induction as with
  | nil => intro bs c; cases bs <;> cases c <;> simp [bothOpt]
  | cons a as ih =>
    intro bs c
    cases bs with
    | nil => cases c <;> simp [bothOpt]
    | cons b bs' =>
      cases c with
      | zero => simp [bothOpt]
      | succ c' => simpa using ih bs' c'

/-- Invariant of a DataTable that has processed the submissions in done
since reset: dimensions are unchanged, there is one list per channel,
and channel c holds the values submitted for it, oldest first, windowed
to the last min(#submissions, capacity) ones. -/
def tableInv (dim size : Nat) (done : List (List ℚ)) (t : DataTable) : Prop :=
  t.dim = dim ∧ t.size = size ∧ t.data.length = dim ∧
  ∀ c, c < dim → t.data.get? c =
    some ((done.map (fun vs => vs.getD c 0)).drop
          (done.length - min done.length size))

/-- One DataTable.add maintains the window invariant (capacity and
dimension at least 1, enough submitted values). -/
lemma DataTable.add_step (dim size : Nat) (hdim : 1 ≤ dim) (hsize : 1 ≤ size)
    (done : List (List ℚ)) (t : DataTable) (vs : List ℚ) (hvs : dim ≤ vs.length)
    (hP : tableInv dim size done t) :
    ∃ t', t.add vs = some t' ∧ tableInv dim size (done ++ [vs]) t' := by
  obtain ⟨tdim, tsize, tdata⟩ := t
  obtain ⟨hdimEq, hsizeEq, hlen, hget⟩ := hP
  simp only at hdimEq hsizeEq hlen hget
  subst tdim
  subst tsize
  cases tdata with
  | nil => simp at hlen; omega
  | cons first restD =>
    have h0 : (first :: restD).get? 0 = some first := rfl
    have hwin0 := hget 0 (by omega)
    simp only at hwin0
    have hfirst : first =
        (done.map (fun vs => vs.getD 0 0)).drop
          (done.length - min done.length size) := by
      rw [h0] at hwin0
      exact Option.some_inj.mp hwin0
    have hfl : first.length = min done.length size := by
      rw [hfirst, List.length_drop, List.length_map]
      omega
    have hadd : DataTable.add ⟨dim, size, first :: restD⟩ vs =
        if dim ≤ vs.length then
          some ⟨dim, size, List.zipWith (fun l v => l ++ [v])
            (if first.length = size then
              (first :: restD).map (fun l => l.drop 1)
             else first :: restD) (vs.take dim)⟩
        else none := rfl
    by_cases hcase : size ≤ done.length
    · have hcond : first.length = size := by rw [hfl]; omega
      refine ⟨⟨dim, size, List.zipWith (fun l v => l ++ [v])
          ((first :: restD).map (fun l => l.drop 1)) (vs.take dim)⟩,
        ?_, rfl, rfl, ?_, ?_⟩
      · rw [hadd, if_pos hvs, if_pos hcond]
      · rw [List.length_zipWith, List.length_map, List.length_take]
        omega
      · intro c hc
        have hc' : c < vs.length := by omega
        have hvsc : vs.get? c = some (vs.getD c 0) := by
          rw [List.getD_eq_get?, List.get?_eq_get hc', Option.getD_some]
        have hwc := hget c hc
        show (List.zipWith (fun l v => l ++ [v])
            ((first :: restD).map (fun l => l.drop 1)) (vs.take dim)).get? c = _
        rw [zipWith_get?, List.get?_map, hwc,
            List.get?_take (show c < dim by omega), hvsc]
        simp only [Option.map_some', bothOpt]
        congr 1
        rw [List.drop_drop, List.map_append, List.drop_append_eq_append_drop]
        simp only [List.map_cons, List.map_nil, List.length_append,
                   List.length_map, List.length_singleton]
        have he1 : done.length + 1 - min (done.length + 1) size =
            done.length - min done.length size + 1 := by omega
        have he2 : done.length - min done.length size + 1 -
            done.length = 0 := by omega
        rw [he1, he2]
        simp
    · have hcond : ¬ first.length = size := by rw [hfl]; omega
      refine ⟨⟨dim, size, List.zipWith (fun l v => l ++ [v])
          (first :: restD) (vs.take dim)⟩, ?_, rfl, rfl, ?_, ?_⟩
      · rw [hadd, if_pos hvs, if_neg hcond]
      · rw [List.length_zipWith, List.length_take]
        omega
      · intro c hc
        have hc' : c < vs.length := by omega
        have hvsc : vs.get? c = some (vs.getD c 0) := by
          rw [List.getD_eq_get?, List.get?_eq_get hc', Option.getD_some]
        have hwc := hget c hc
        have hk : done.length - min done.length size = 0 := by omega
        rw [hk, List.drop_zero] at hwc
        show (List.zipWith (fun l v => l ++ [v])
            (first :: restD) (vs.take dim)).get? c = _
        rw [zipWith_get?, hwc,
            List.get?_take (show c < dim by omega), hvsc]
        simp only [bothOpt]
        congr 1
        rw [List.map_append]
        simp only [List.map_cons, List.map_nil, List.length_append,
                   List.length_singleton]
        have he1 : done.length + 1 - min (done.length + 1) size = 0 := by
          omega
        rw [he1, List.drop_zero]

/-- Any sequence of valid DataTable.add calls maintains the window
invariant. -/
lemma DataTable.addAll_inv (dim size : Nat) (hdim : 1 ≤ dim) (hsize : 1 ≤ size) :
    ∀ (vss done : List (List ℚ)) (t : DataTable),
      (∀ vs ∈ vss, dim ≤ vs.length) → tableInv dim size done t →
      ∃ t', t.addAll vss = some t' ∧ tableInv dim size (done ++ vss) t' := by
  intro vss
  induction vss with
  | nil =>
    intro done t _ hP
    exact ⟨t, rfl, by simpa using hP⟩
  | cons vs rest ih =>
    intro done t hv hP
    obtain ⟨t1, hadd, hP1⟩ :=
      DataTable.add_step dim size hdim hsize done t vs
        (hv vs (List.mem_cons_self vs rest)) hP
    obtain ⟨t', hall, hP'⟩ :=
      ih (done ++ [vs]) t1 (fun u hu => hv u (List.mem_cons_of_mem vs hu)) hP1
    refine ⟨t', ?_, by simpa [List.append_assoc] using hP'⟩
    simp only [DataTable.addAll, hadd]
    exact hall

/-- A freshly reset DataTable satisfies the invariant for the empty
submission history. -/
lemma DataTable.reset_inv (dim size : Nat) :
    tableInv dim size [] (DataTable.reset dim size) := by
  refine ⟨rfl, rfl, by simp [DataTable.reset], ?_⟩
  intro c hc
  simp [DataTable.reset, List.get?_eq_getElem?, List.getElem?_replicate, hc]

/-- Per-channel description of the oversampling sum loop of _get_data:
folding the channel-wise additions over the raw readings accumulates, for
every channel, the plain sum of that channel's readings. -/
lemma getData_sum (dim : Nat) (provider : Nat → List ℚ) :
    ∀ (js : List Nat) (acc : List ℚ), acc.length = dim →
      (∀ j ∈ js, dim ≤ (provider j).length) →
      (js.foldl (fun acc j =>
          List.zipWith (fun a b => a + b) acc ((provider j).take dim)) acc).length
          = dim ∧
      ∀ c, c < dim →
        (js.foldl (fun acc j =>
            List.zipWith (fun a b => a + b) acc ((provider j).take dim)) acc).get? c
          = some (acc.getD c 0 + (js.map (fun j => (provider j).getD c 0)).sum) := by
  intro js
  induction js with
  | nil =>
    intro acc hlen _
    refine ⟨hlen, ?_⟩
    intro c hc
    have hx : acc.get? c = some (acc.getD c 0) := by
      rw [List.getD_eq_get?, List.get?_eq_get (by omega : c < acc.length),
          Option.getD_some]
    simpa using hx
  | cons j js ih =>
    intro acc hlen hj
    have hjl : dim ≤ (provider j).length := hj j (List.mem_cons_self _ _)
    have hlen' :
        (List.zipWith (fun a b => a + b) acc ((provider j).take dim)).length = dim := by
      rw [List.length_zipWith, List.length_take]
      omega
    obtain ⟨hl, hg⟩ :=
      ih (List.zipWith (fun a b => a + b) acc ((provider j).take dim)) hlen'
        (fun u hu => hj u (List.mem_cons_of_mem _ hu))
    refine ⟨hl, ?_⟩
    intro c hc
    have hstep := hg c hc
    rw [List.foldl_cons, hstep]
    have h1 : acc.get? c = some (acc.getD c 0) := by
      rw [List.getD_eq_get?, List.get?_eq_get (by omega : c < acc.length),
          Option.getD_some]
    have h2 : ((provider j).take dim).get? c = some ((provider j).getD c 0) := by
      rw [List.get?_take hc, List.getD_eq_get?,
          List.get?_eq_get (by omega : c < (provider j).length), Option.getD_some]
    have hzip :
        (List.zipWith (fun a b => a + b) acc ((provider j).take dim)).getD c 0 =
          acc.getD c 0 + (provider j).getD c 0 := by
      rw [List.getD_eq_get?, zipWith_get?, h1, h2]
      simp [bothOpt]
    rw [hzip, List.map_cons, List.sum_cons, add_assoc]

/-! ### Claims -/

/-- C9: for every unit label in the closed set ms, s, m, h, d, int_fac
returns its seconds-per-unit factor (0.001, 1, 60, 3600, 86400),
dur_scale returns the next larger unit (ms to s, s to m, m to h, h to d,
d to d), dur_fac is int_fac composed with dur_scale, and for any label
outside the closed set all three functions fail (KeyError, modelled as
none) instead of returning a value. -/
theorem C9_scale_table :
    (int_fac "ms" = some (1/1000) ∧ int_fac "s" = some 1 ∧
     int_fac "m" = some 60 ∧ int_fac "h" = some 3600 ∧
     int_fac "d" = some 86400) ∧
    (dur_scale "ms" = some "s" ∧ dur_scale "s" = some "m" ∧
     dur_scale "m" = some "h" ∧ dur_scale "h" = some "d" ∧
     dur_scale "d" = some "d") ∧
    (dur_fac "ms" = int_fac "s" ∧ dur_fac "s" = int_fac "m" ∧
     dur_fac "m" = int_fac "h" ∧ dur_fac "h" = int_fac "d" ∧
     dur_fac "d" = int_fac "d") ∧
    (∀ u : String, u ∉ (["ms", "s", "m", "h", "d"] : List String) →
      int_fac u = none ∧ dur_scale u = none ∧ dur_fac u = none) := by
  refine ⟨?_, by decide, by decide, ?_⟩
  · refine ⟨?_, ?_, ?_, ?_, ?_⟩ <;> simp +decide [int_fac, INT_SCALES]
  · intro u hu
    simp only [List.mem_cons, List.not_mem_nil, or_false, not_or] at hu
    obtain ⟨h1, h2, h3, h4, h5⟩ := hu
    refine ⟨?_, ?_, ?_⟩ <;>
      simp [int_fac, dur_scale, dur_fac, INT_SCALES, h1, h2, h3, h4, h5]

/-- Witness for C9: a label outside the closed set makes all three
functions fail. -/
theorem C9_scale_table_witness :
    int_fac "week" = none ∧ dur_scale "week" = none ∧ dur_fac "week" = none :=
  C9_scale_table.2.2.2 "week" (by decide)

/-- C1 (code bug): for the failing input dim = 1 with the single sample
[2], DataAggregator.get returns min = 2, mean = 1, max = 2 — the reported
mean differs from the arithmetic mean 2 of the observed values, because
reset initialises the running sum to -1 instead of the 0 announced in the
code's own comment.  (The min/max bounds of the claim do hold here.) -/
theorem C1_mean_bug_eval :
    ((DataAggregator.reset 1).add [2]).get = some [(2, 1, 2)] ∧
    ((DataAggregator.reset 1).add [2]).get ≠ some [(2, (2 : ℚ)/1, 2)] := by
  constructor
  · simp [DataAggregator.reset, DataAggregator.add, DataAggregator.get,
          DataAggregator.updateEntry]
    norm_num
  · simp [DataAggregator.reset, DataAggregator.add, DataAggregator.get,
          DataAggregator.updateEntry]

/-- Counterexample to C8 as stated: after reset the per-channel state is
[1e6, -1, 0], not [min = +infinity, sum = 0, max = 0]; behaviourally,
after the single sample [2000000] the code reports min = 1000000 (the
finite sentinel) and mean = 1999999, while an aggregator initialised with
min = +infinity and sum = 0 would report min = mean = 2000000. -/
theorem C8_init_cex :
    (DataAggregator.reset 1).data = [(1000000, -1, 0)] ∧
    ((DataAggregator.reset 1).add [2000000]).get =
      some [(1000000, 1999999, 2000000)] ∧
    (1000000 : ℚ) ≠ 2000000 := by
  refine ⟨by simp [DataAggregator.reset], ?_, by norm_num⟩
  simp [DataAggregator.reset, DataAggregator.add, DataAggregator.get,
        DataAggregator.updateEntry]
  norm_num

/-- C8 (amended): after DataAggregator.reset(dim) the aggregator holds
dim channels each initialised to min = 1e6 (a large finite sentinel, not
+infinity), sum = -1, max = 0; consequently, for every nonempty sequence
of samples in which channel c only ever receives negative values, get()
still reports max = 0 for that channel. -/
theorem C8_max_quirk_amended (dim c : Nat) (vss : List (List ℚ)) (hc : c < dim)
    (hneg : ∀ vs ∈ vss, c < vs.length → vs.getD c 0 < 0) (hne : vss ≠ []) :
    (DataAggregator.reset dim).data = List.replicate dim (1000000, -1, 0) ∧
    ∃ l, ((DataAggregator.reset dim).addAll vss).get = some l ∧
      (l.get? c).map (fun d => d.2.2) = some 0 := by
  refine ⟨rfl, ?_⟩
  have hinit : (((DataAggregator.reset dim).data.get? c).map (fun d => d.2.2))
      = some 0 := by
    simp [DataAggregator.reset, List.get?_eq_getElem?, List.getElem?_replicate, hc]
  have hmax := DataAggregator.addAll_neg_max vss (DataAggregator.reset dim) c hinit hneg
  have hn : ((DataAggregator.reset dim).addAll vss).n ≠ 0 := by
    rw [DataAggregator.addAll_n]
    simp [DataAggregator.reset]
    exact hne
  rw [DataAggregator.get, if_neg hn]
  refine ⟨_, rfl, ?_⟩
  rw [List.get?_map]
  cases hd : ((DataAggregator.reset dim).addAll vss).data.get? c with
  | none => rw [hd] at hmax; simp at hmax
  | some d =>
    rw [hd] at hmax
    simp at hmax ⊢
    exact hmax

/-- Witness for C8 (amended): one channel fed only the negative values
-5 and -3 still reports max = 0. -/
theorem C8_max_quirk_amended_witness :
    (DataAggregator.reset 1).data = List.replicate 1 (1000000, -1, 0) ∧
    ∃ l, ((DataAggregator.reset 1).addAll [[-5], [-3]]).get = some l ∧
      (l.get? 0).map (fun d => d.2.2) = some 0 :=
  C8_max_quirk_amended 1 0 [[-5], [-3]] (by omega)
    (by
      intro vs hvs h
      simp only [List.mem_cons, List.not_mem_nil, or_false] at hvs
      rcases hvs with rfl | rfl <;> norm_num [List.getD])
    (by simp)

/-- C7: acquiring one accepted sample with oversample setting K (source
condition oversample < 2): if K is at most 1 the source is read exactly
once and its raw values are returned unchanged; if K is at least 2 the
source is read exactly K times and each of the dim accepted channel
values is the sum of that channel over the K raw readings, divided once
by K at the end. -/
theorem C7_oversampling (oversample dim : Nat) (provider : Nat → List ℚ)
    (hlen : ∀ j, j < oversample → dim ≤ (provider j).length) :
    (oversample ≤ 1 →
      ActiveState.getData oversample dim provider = some (1, provider 0)) ∧
    (2 ≤ oversample →
      ∃ v, ActiveState.getData oversample dim provider = some (oversample, v) ∧
        v.length = dim ∧
        ∀ c, c < dim → v.get? c =
          some (((List.range oversample).map
                  (fun j => (provider j).getD c 0)).sum / (oversample : ℚ))) := by
  constructor
  · intro h
    rw [ActiveState.getData, if_pos (by omega)]
  · intro h
    have hall : (List.range oversample).all
        (fun j => decide (dim ≤ (provider j).length)) = true := by
      rw [List.all_eq_true]
      intro j hj
      simp only [decide_eq_true_eq]
      exact hlen j (List.mem_range.mp hj)
    obtain ⟨hl, hg⟩ := getData_sum dim provider (List.range oversample)
      (List.replicate dim 0) (List.length_replicate dim 0)
      (fun j hj => hlen j (List.mem_range.mp hj))
    rw [ActiveState.getData, if_neg (by omega)]
    rw [if_pos hall]
    refine ⟨_, rfl, by simpa using hl, ?_⟩
    intro c hc
    rw [List.get?_map, hg c hc]
    have hrep : (List.replicate dim (0 : ℚ)).getD c 0 = 0 := by
      rw [List.getD_eq_get?, List.get?_eq_getElem?, List.getElem?_replicate]
      simp [hc]
    simp [hrep]

/-- Witness for C7: oversample 3, two channels, readings [j, 2j+1]. -/
theorem C7_oversampling_witness :
    ∃ v, ActiveState.getData 3 2 (fun j => [(j : ℚ), 2 * (j : ℚ) + 1]) =
        some (3, v) ∧
      v.length = 2 ∧
      ∀ c, c < 2 → v.get? c =
        some (((List.range 3).map
                (fun j => ([(j : ℚ), 2 * (j : ℚ) + 1]).getD c 0)).sum / (3 : ℚ)) :=
  (C7_oversampling 3 2 (fun j => [(j : ℚ), 2 * (j : ℚ) + 1])
    (by intro j hj; simp)).2 (by omega)


/-- C3: if the initial probe read of the data provider (the first
get_data after reset, before timing starts) raises, _run prints the
failure message and returns at once: the session ends on the failed path
and app.results keeps exactly its previous contents — no publish event
occurs. -/
theorem C3_probe_failure_no_publish (startT : ℚ) (steps : List StepResult)
    (dim : Nat) (dataT0 : Option ℚ) (init : Results) :
    (ActiveState.run startT false steps dim dataT0 init).1 = init ∧
    (ActiveState.run startT false steps dim dataT0 init).2.2 = Outcome.failed ∧
    ∀ e ∈ (ActiveState.run startT false steps dim dataT0 init).2.1,
      e.isPublish = false := by
  refine ⟨rfl, rfl, ?_⟩
  intro e he
  have h : (ActiveState.run startT false steps dim dataT0 init).2.1 =
      [Event.loggerOpen, Event.logSettings] := rfl
  rw [h] at he
  simp only [List.mem_cons, List.not_mem_nil, or_false] at he
  rcases he with rfl | rfl <;> rfl

/-- Witness for C3: a concrete probe-failure session leaves the previous
results untouched. -/
theorem C3_probe_failure_no_publish_witness :
    (ActiveState.run 0 false [] 1 none ⟨0, 0, []⟩).1 = ⟨0, 0, []⟩ ∧
    Event.isPublish Event.loggerOpen = false :=
  ⟨(C3_probe_failure_no_publish 0 [] 1 none ⟨0, 0, []⟩).1,
   (C3_probe_failure_no_publish 0 [] 1 none ⟨0, 0, []⟩).2.2 Event.loggerOpen
     (by decide)⟩

/-- C2 (code bug), evaluated at the failing input: the probe succeeds and
the first in-loop read raises StopIteration, so the loop exits with zero
accepted samples.  There is no degenerate-session handling: with a stale
self.data_t the code overwrites results.time and results.samples and then
calls DataAggregator.get with count 0, whose division by zero crashes the
coroutine (modelled: get = none, outcome crashed); with a fresh state the
read of the unset self.data_t crashes first.  No empty ResultSet is
published and the summary division is never skipped — it is never
reached. -/
theorem C2_zero_samples_crash_eval :
    ActiveState.run 0 true [StepResult.stopIteration] 1 (some 0) ⟨0, 0, []⟩ =
      (⟨0, 0, []⟩, [Event.loggerOpen, Event.logSettings], Outcome.crashed) ∧
    (DataAggregator.reset 1).get = none ∧
    ActiveState.run 0 true [StepResult.stopIteration] 1 none ⟨0, 0, []⟩ =
      (⟨0, 0, []⟩, [Event.loggerOpen, Event.logSettings], Outcome.crashed) := by
  refine ⟨?_, by simp [DataAggregator.reset, DataAggregator.get], ?_⟩ <;>
    simp [ActiveState.run, ActiveState.runLoop, DataAggregator.reset,
          DataAggregator.get]

/-- Counterexample to C4 as stated: in a normally terminating session the
publish of the SessionResult (trace index 3) happens strictly before the
gather that joins the key-polling and view-refresh tasks (trace index 6),
so the activities do not quiesce before publication. -/
theorem C4_publish_before_join_cex :
    (ActiveState.run 0 true [StepResult.ok 1 [2]] 1 none ⟨0, 0, []⟩).2.1 =
      [Event.loggerOpen, Event.logSettings, Event.logValues ⟨1000, 1, [2]⟩,
       Event.publish 1 1 [(2, 1, 2)], Event.logSummary 1, Event.loggerClose,
       Event.joinTasks] ∧
    (ActiveState.run 0 true [StepResult.ok 1 [2]] 1 none ⟨0, 0, []⟩).2.1.findIdx
        Event.isPublish <
      (ActiveState.run 0 true [StepResult.ok 1 [2]] 1 none ⟨0, 0, []⟩).2.1.findIdx
        Event.isJoin := by
  have h : (ActiveState.run 0 true [StepResult.ok 1 [2]] 1 none ⟨0, 0, []⟩).2.1 =
      [Event.loggerOpen, Event.logSettings, Event.logValues ⟨1000, 1, [2]⟩,
       Event.publish 1 1 [(2, 1, 2)], Event.logSummary 1, Event.loggerClose,
       Event.joinTasks] := by
    simp [ActiveState.run, ActiveState.runLoop, DataAggregator.reset,
          DataAggregator.add, DataAggregator.get, DataAggregator.updateEntry,
          LogWriter.log_values]
    norm_num
  exact ⟨h, by rw [h]; decide⟩

/-- C4 (amended): on every session whose probe succeeds and that reaches
normal termination, the two auxiliary tasks are joined before control
returns to the caller (the gather is the final event), but only after the
SessionResult has been published — publish, summary and close all precede
the join; a probe-failure session returns without joining at all. -/
theorem C4_join_last_amended (startT : ℚ) (steps : List StepResult)
    (dim : Nat) (dataT0 : Option ℚ) (init : Results)
    (hfin : (ActiveState.run startT true steps dim dataT0 init).2.2 =
      Outcome.finished) :
    ∃ pre tm n vals,
      (ActiveState.run startT true steps dim dataT0 init).2.1 =
        pre ++ [Event.publish tm n vals, Event.logSummary n,
                Event.loggerClose, Event.joinTasks] ∧
      ∀ e ∈ pre, e.isPublish = false ∧ e.isJoin = false := by
  cases h1 : (ActiveState.runLoop (DataAggregator.reset dim) dataT0 0
      [Event.loggerOpen, Event.logSettings] steps).dataT with
  | none =>
    rw [ActiveState.run_crash_attr startT steps dim dataT0 init h1] at hfin
    simp at hfin
  | some t =>
    cases h2 : (ActiveState.runLoop (DataAggregator.reset dim) dataT0 0
        [Event.loggerOpen, Event.logSettings] steps).agg.get with
    | none =>
      rw [ActiveState.run_crash_div startT steps dim dataT0 init t h1 h2] at hfin
      simp at hfin
    | some vals =>
      have htr := congrArg (fun p => p.2.1)
        (ActiveState.run_finished startT steps dim dataT0 init t vals h1 h2)
      simp only at htr
      rw [htr]
      refine ⟨(ActiveState.runLoop (DataAggregator.reset dim) dataT0 0
          [Event.loggerOpen, Event.logSettings] steps).events, t - startT,
        (ActiveState.runLoop (DataAggregator.reset dim) dataT0 0
          [Event.loggerOpen, Event.logSettings] steps).samples, vals, rfl, ?_⟩
      obtain ⟨l, hl, hmem⟩ := ActiveState.runLoop_trace steps
        (DataAggregator.reset dim) dataT0 0 [Event.loggerOpen, Event.logSettings]
      intro e he
      rw [hl] at he
      rcases List.mem_append.mp he with h0 | hval
      · simp only [List.mem_cons, List.not_mem_nil, or_false] at h0
        rcases h0 with rfl | rfl <;> exact ⟨rfl, rfl⟩
      · obtain ⟨t', v', -, heq⟩ := hmem e hval
        subst heq
        exact ⟨rfl, rfl⟩

/-- Witness for C4 (amended): the concrete one-sample session. -/
theorem C4_join_last_amended_witness :
    ∃ pre tm n vals,
      (ActiveState.run 0 true [StepResult.ok 1 [2]] 1 none ⟨0, 0, []⟩).2.1 =
        pre ++ [Event.publish tm n vals, Event.logSummary n,
                Event.loggerClose, Event.joinTasks] ∧
      ∀ e ∈ pre, e.isPublish = false ∧ e.isJoin = false :=
  C4_join_last_amended 0 [StepResult.ok 1 [2]] 1 none ⟨0, 0, []⟩ (by decide)

/-- Counterexample to C5 as stated: in a session started at monotonic
time 5 whose sample is read at monotonic time 7, the logged line's first
field is 7000.0 (1000 times the raw time.monotonic() value passed to
log_values), not the elapsed 2000.0 milliseconds since the session
started. -/
theorem C5_first_field_cex :
    Event.logValues ⟨7000, 1, [2]⟩ ∈
      (ActiveState.run 5 true [StepResult.ok 7 [2]] 1 none ⟨0, 0, []⟩).2.1 ∧
    (7000 : ℚ) ≠ 1000 * (7 - 5) := by
  constructor
  · have h : (ActiveState.run 5 true [StepResult.ok 7 [2]] 1 none ⟨0, 0, []⟩).2.1 =
        [Event.loggerOpen, Event.logSettings, Event.logValues ⟨7000, 1, [2]⟩,
         Event.publish 2 1 [(2, 1, 2)], Event.logSummary 1, Event.loggerClose,
         Event.joinTasks] := by
      simp [ActiveState.run, ActiveState.runLoop, DataAggregator.reset,
            DataAggregator.add, DataAggregator.get, DataAggregator.updateEntry,
            LogWriter.log_values]
      norm_num
    rw [h]
    simp
  · norm_num

/-- C5 (amended): every per-sample log line written during any session
has the form "<t_ms>,<ch0>,<ch1>,...\n" where the first field, formatted
with exactly one decimal place, is 1000 times the raw monotonic timestamp
of that sample (the value _get_data returned, not the time elapsed since
the session started), followed by the accepted channel values at the
provider-specified precision. -/
theorem C5_logline_amended (startT : ℚ) (probe : Bool) (steps : List StepResult)
    (dim : Nat) (dataT0 : Option ℚ) (init : Results) (line : LogLine)
    (hmem : Event.logValues line ∈
      (ActiveState.run startT probe steps dim dataT0 init).2.1) :
    ∃ t v, StepResult.ok t v ∈ steps ∧ line = ⟨1000 * t, 1, v⟩ := by
  cases probe with
  | false =>
    have h : (ActiveState.run startT false steps dim dataT0 init).2.1 =
        [Event.loggerOpen, Event.logSettings] := rfl
    rw [h] at hmem
    simp at hmem
  | true =>
    obtain ⟨tail, htr, htail⟩ :=
      ActiveState.run_true_trace startT steps dim dataT0 init
    rw [htr] at hmem
    rcases List.mem_append.mp hmem with hev | hta
    · obtain ⟨l, hl, hmeml⟩ := ActiveState.runLoop_trace steps
        (DataAggregator.reset dim) dataT0 0 [Event.loggerOpen, Event.logSettings]
      rw [hl] at hev
      rcases List.mem_append.mp hev with h0 | hval
      · simp at h0
      · obtain ⟨t, v, hms, heq⟩ := hmeml _ hval
        refine ⟨t, v, hms, ?_⟩
        exact Event.logValues.inj heq
    · have hbad := htail _ hta
      simp [Event.isLogValues] at hbad

/-- Witness for C5 (amended): the line logged for the sample read at
monotonic time 7 carries first field 7000 and channel values [2]. -/
theorem C5_logline_amended_witness :
    ∃ t v, StepResult.ok t v ∈ [StepResult.ok 7 [2]] ∧
      (⟨7000, 1, [2]⟩ : LogLine) = ⟨1000 * t, 1, v⟩ :=
  C5_logline_amended 5 true [StepResult.ok 7 [2]] 1 none ⟨0, 0, []⟩ ⟨7000, 1, [2]⟩
    (by
      have h : (ActiveState.run 5 true [StepResult.ok 7 [2]] 1 none ⟨0, 0, []⟩).2.1 =
          [Event.loggerOpen, Event.logSettings, Event.logValues ⟨7000, 1, [2]⟩,
           Event.publish 2 1 [(2, 1, 2)], Event.logSummary 1, Event.loggerClose,
           Event.joinTasks] := by
        simp [ActiveState.run, ActiveState.runLoop, DataAggregator.reset,
              DataAggregator.add, DataAggregator.get, DataAggregator.updateEntry,
              LogWriter.log_values]
        norm_num
      rw [h]
      simp)

/-- Counterexample to C6 as stated: with capacity C = 0, two adds leave
channel 0 holding [5, 6] — not the last C = 0 submitted values (the empty
list): the eviction condition len == size never fires again once the
length has passed the capacity. -/
theorem C6_capacity_zero_cex :
    (DataTable.reset 1 0).addAll [[5], [6]] = some ⟨1, 0, [[5, 6]]⟩ ∧
    [(5 : ℚ), 6] ≠ ([] : List ℚ) := by decide

/-- C6 (amended): for a DataTable with capacity C ≥ 1 (and at least one
channel, each submission carrying at least dim values): after M adds
since reset, get() returns for each channel the last min(M, C) submitted
values for that channel, oldest first, in submission order — all M values
when M ≤ C, exactly the last C when M > C. -/
theorem C6_ring_window (dim size : Nat) (vss : List (List ℚ))
    (hdim : 1 ≤ dim) (hsize : 1 ≤ size) (hv : ∀ vs ∈ vss, dim ≤ vs.length) :
    ∃ t, (DataTable.reset dim size).addAll vss = some t ∧
      ∀ c, c < dim → t.get.get? c =
        some ((vss.map (fun vs => vs.getD c 0)).drop
              (vss.length - min vss.length size)) := by
  obtain ⟨t, hall, hinv⟩ := DataTable.addAll_inv dim size hdim hsize vss []
    (DataTable.reset dim size) hv (DataTable.reset_inv dim size)
  refine ⟨t, hall, ?_⟩
  intro c hc
  have h := hinv.2.2.2 c hc
  simpa [DataTable.get] using h

/-- Witness for C6 (amended): capacity 2, three adds, window [2, 3]. -/
theorem C6_ring_window_witness :
    ∃ t, (DataTable.reset 1 2).addAll [[1], [2], [3]] = some t ∧
      ∀ c, c < 1 → t.get.get? c =
        some (([[(1 : ℚ)], [2], [3]].map (fun vs : List ℚ => vs.getD c 0)).drop
              ([[(1 : ℚ)], [2], [3]].length -
                min [[(1 : ℚ)], [2], [3]].length 2)) :=
  C6_ring_window 1 2 [[1], [2], [3]] (by omega) (by omega) (by decide)

/-- Counterexample to C10 as stated: with capacity 0 the channel lists
grow past the capacity — after three adds channel 0 has length 3, not
min(3, 0) = 0. -/
theorem C10_capacity_zero_cex :
    (DataTable.reset 1 0).addAll [[1], [2], [3]] = some ⟨1, 0, [[1, 2, 3]]⟩ ∧
    ¬ ([(1 : ℚ), 2, 3].length = min 3 0) := by decide

/-- C10 (amended): for a DataTable with capacity ≥ 1 and dim ≥ 1, after
reset and any sequence of add(values) calls in which each values has at
least dim elements, there are exactly dim per-channel lists and they all
have the same length min(number of adds since reset, capacity); in
particular no channel list exceeds the capacity. -/
theorem C10_lengths_amended (dim size : Nat) (vss : List (List ℚ))
    (hdim : 1 ≤ dim) (hsize : 1 ≤ size) (hv : ∀ vs ∈ vss, dim ≤ vs.length) :
    ∃ t, (DataTable.reset dim size).addAll vss = some t ∧
      t.data.length = dim ∧
      ∀ l ∈ t.data, l.length = min vss.length size := by
  obtain ⟨t, hall, hinv⟩ := DataTable.addAll_inv dim size hdim hsize vss []
    (DataTable.reset dim size) hv (DataTable.reset_inv dim size)
  obtain ⟨hd, hs, hlen, hget⟩ := hinv
  refine ⟨t, hall, hlen, ?_⟩
  intro l hl
  obtain ⟨c, hc⟩ := List.mem_iff_get?.mp hl
  have hcd : c < dim := by
    rcases List.get?_eq_some.mp hc with ⟨hlt, -⟩
    omega
  have hw := hget c hcd
  rw [hc] at hw
  have hle : l = (([] ++ vss).map (fun vs : List ℚ => vs.getD c 0)).drop
      (([] ++ vss).length - min ([] ++ vss).length size) :=
    Option.some_inj.mp hw
  rw [hle, List.length_drop, List.length_map]
  simp only [List.nil_append]
  omega

/-- Witness for C10 (amended): dim 1, capacity 2, three adds give one
channel list of length min(3, 2) = 2. -/
theorem C10_lengths_amended_witness :
    ∃ t, (DataTable.reset 1 2).addAll [[5], [6], [7]] = some t ∧
      t.data.length = 1 ∧
      ∀ l ∈ t.data, l.length = min [[(5 : ℚ)], [6], [7]].length 2 :=
  C10_lengths_amended 1 2 [[5], [6], [7]] (by omega) (by omega) (by decide)

end PAS
